import Mathlib

/-!
Verification development for the bppSuite command-line tools
(src/bppSuite/bppPopStats.cpp and src/bppSuite/bppSeqGen.cpp).

The two programs are glue code over external Bio++ libraries: parameter
parsing, control flow selecting library routines, and text output.  The
shallow embedding below translates the control flow that is implemented in
this repository.  External library entities (alignments, trees, the
statistic estimators and the simulator engine) are represented abstractly:
alignments and trees are type parameters, and each external routine called
by the glue code becomes an oracle function supplied as a parameter, since
those routines are not part of this repository.  C++ doubles are modelled
as rationals, and unsigned int arithmetic as natural numbers with explicit
reduction modulo 2 to the 32.
-/

/-! Decimal rendering of natural numbers.  TextTools::toString(unsigned int)
in the C++ code prints the number in decimal notation; the functions below
model that, most significant digit first.  A fuel parameter makes the
recursion structural so that the kernel can evaluate it. -/

/-- Character for a decimal digit d, valid for d < 10. -/
def digitChar10 (d : ℕ) : Char := Char.ofNat (48 + d)

/-- Decimal digit list of n, most significant first, with explicit fuel. -/
def natDigitsAux : ℕ → ℕ → List Char
  | 0, _ => []
  | fuel + 1, n =>
    if n < 10 then [digitChar10 n]
    else natDigitsAux fuel (n / 10) ++ [digitChar10 (n % 10)]

/-- Decimal digit list of n, most significant first. -/
def natDigits (n : ℕ) : List Char := natDigitsAux (n + 1) n

/-- Model of TextTools::toString on an unsigned integer: decimal notation. -/
def toDecimalString (n : ℕ) : String := String.mk (natDigits n)

/-- Value of a decimal digit string, used to invert natDigits. -/
def evalDigits (l : List Char) : ℕ := l.foldl (fun a c => 10 * a + (c.toNat - 48)) 0

/-- Log variable name suffix: the C++ dispatcher appends
TextTools::toString(toolCounter[cmdName]) when the counter exceeds 1,
and nothing otherwise. -/
def sfx (k : ℕ) : String := if k > 1 then toDecimalString k else ""

/-- A string is digit-free when none of its characters is a decimal digit. -/
def digitFree (s : String) : Prop := ∀ c ∈ s.data, c.isDigit = false

/-! Embedding of bppSeqGen.cpp.  Trees are abstract (type parameter), with
an oracle mapping each tree to the value its leaf-name list compares by;
VectorTools::haveSameElements is order-insensitive set comparison, so the
oracle target only needs decidable equality.  Newick parsing and the lexical
splitting of each line into a begin position, an end position and a tree
text are external library work; readTrees below starts from the already
split lines, keeping the two consistency checks and the accumulation of
trees and boundary positions that the C++ loop implements. -/

deriving instance DecidableEq for Except

/-- One parsed line of a multi-segment tree file: begin position, end
position, and the tree on that segment. -/
structure TreeLine (τ : Type) where
  bpos : ℚ
  epos : ℚ
  tree : τ
deriving DecidableEq

/-- Loop of readTrees from bppSeqGen.cpp.  For each line: if a previous
tree exists and its leaf names differ, fail; push the tree; if the line
begin differs from the previous end (initially 0), fail; push the end
position. -/
def readTreesGo {τ β : Type} [DecidableEq β] (leafNames : τ → β) :
    List (TreeLine τ) → List τ → List ℚ → ℚ → Except String (List τ × List ℚ)
  | [], trees, pos, _ => .ok (trees, pos)
  | l :: ls, trees, pos, prev =>
    match trees.getLast? with
    | some t =>
      if leafNames l.tree = leafNames t then
        if l.bpos = prev then
          readTreesGo leafNames ls (trees ++ [l.tree]) (pos ++ [l.epos]) l.epos
        else .error "Error when parsing tree file: segments do not match."
      else .error "Error: all trees must have the same leaf names."
    | none =>
      if l.bpos = prev then
        readTreesGo leafNames ls (trees ++ [l.tree]) (pos ++ [l.epos]) l.epos
      else .error "Error when parsing tree file: segments do not match."

/-- readTrees of bppSeqGen.cpp: empty accumulators, initial previous
position 0, and the initial 0 pushed onto the position list. -/
def readTrees {τ β : Type} [DecidableEq β] (leafNames : τ → β)
    (lines : List (TreeLine τ)) : Except String (List τ × List ℚ) :=
  readTreesGo leafNames lines [] [0] 0

/-- Segment contiguity: every line begin equals the previous line end,
starting from prev. -/
def alignedB : ℚ → List (TreeLine τ) → Bool
  | _, [] => true
  | prev, l :: ls => if l.bpos = prev then alignedB l.epos ls else false

/-- Leaf-name consistency of consecutive trees, starting from the leaf
names of the previously accepted tree if any. -/
def leafOkB {τ β : Type} [DecidableEq β] (leafNames : τ → β) :
    Option β → List (TreeLine τ) → Bool
  | _, [] => true
  | prev?, l :: ls =>
    (match prev? with
     | some b => decide (leafNames l.tree = b)
     | none => true)
    && leafOkB leafNames (some (leafNames l.tree)) ls

/-- Concrete two-segment input with equal leaf-name values. -/
def c3Lines : List (TreeLine ℕ) := [⟨0, 1, 5⟩, ⟨1, 1, 5⟩]

/-! Simulation driver of bppSeqGen.cpp.  The C doubles are rationals; the
C round function (round half away from zero) and the cast to unsigned int
are explicit, as is the wrap-around of unsigned subtraction. -/

/-- Model of the C round function: round half away from zero. -/
def cround (q : ℚ) : ℤ := if q < 0 then -⌊-q + 1 / 2⌋ else ⌊q + 1 / 2⌋

/-- Cast of a nonnegative integer value to unsigned int. -/
def castUInt (z : ℤ) : ℕ := z.toNat % 4294967296

/-- Unsigned int subtraction with wrap-around. -/
def usub (a b : ℕ) : ℕ := (a + 4294967296 - b) % 4294967296

/-- Segment site-count loop of the number_of_sites branch (bppSeqGen.cpp
multi-segment simulate): segment i covers
round(positions[i+1]*nbSites) - previousPos sites, previousPos starting at
0 and updated to the current rounded position.  The fuel argument counts
the remaining segments. -/
def segLoopAux (positions : List ℚ) (n : ℕ) : ℕ → ℕ → ℕ → List ℕ
  | 0, _, _ => []
  | fuel + 1, i, prev =>
    let cur := castUInt (cround (positions.getD (i + 1) 0 * (n : ℚ)))
    usub cur prev :: segLoopAux positions n fuel (i + 1) cur

/-- Per-segment site counts for k segments. -/
def segSiteCounts (positions : List ℚ) (n k : ℕ) : List ℕ :=
  segLoopAux positions n k 0 0

/-- Segment rate-slice loop of the rate-file branch (bppSeqGen.cpp
multi-segment simulateSites): the first segment takes rates[previousPos,
currentPos), every later segment takes rates[previousPos + 1, currentPos)
exactly as the C++ iterator arithmetic does. -/
def rateSegLoopAux (rates positions : List ℚ) : ℕ → ℕ → ℕ → List (List ℚ)
  | 0, _, _ => []
  | fuel + 1, i, prev =>
    let cur := castUInt (cround (positions.getD (i + 1) 0 * (rates.length : ℚ)))
    (if i = 0 then (rates.drop prev).take (cur - prev)
     else (rates.drop (prev + 1)).take (cur - (prev + 1)))
      :: rateSegLoopAux rates positions fuel (i + 1) cur

/-- Per-segment rate slices for k segments. -/
def rateSegments (rates positions : List ℚ) (k : ℕ) : List (List ℚ) :=
  rateSegLoopAux rates positions k 0 0

/-- Summary of one bppSeqGen run: whether the tagged tree was written (and
where), whether any simulation was performed, the number of sites of the
final alignment, and whether the alignment was written. -/
structure SeqGenEvents where
  wroteTaggedTree : Option String
  simulated : Bool
  sites : ℕ
  wroteAlignment : Bool
deriving DecidableEq

/-- Model set resolution of bppSeqGen.cpp: homogeneous mode always
succeeds; one_per_branch and general fail when the input tree method is
multiple; unknown options fail. -/
def modelSetTry (inputTrees nhOpt : String) : Except String Unit :=
  if nhOpt = "no" then .ok ()
  else if nhOpt = "one_per_branch" then
    if inputTrees = "multiple" then
      .error "Multiple input trees cannot be used with non-homogeneous simulations."
    else .ok ()
  else if nhOpt = "general" then
    if inputTrees = "multiple" then
      .error "Multiple input trees cannot be used with non-homogeneous simulations."
    else .ok ()
  else .error ("Unknown non-homogeneous option: " ++ nhOpt)

/-- Configuration of one bppSeqGen run, after parameter parsing. -/
structure SeqGenConfig (τ : Type) where
  inputTreeMethod : String
  singleTree : τ
  treeLines : List (TreeLine τ)
  outputTreePath : String
  infosFile : String
  infosRates : List ℚ
  nhOpt : String
  numberOfSites : ℕ

/-- Pipeline of bppSeqGen main: load trees (single or multiple), in single
mode optionally write the tagged tree and stop, resolve the model set,
then simulate (single tree: all sites at once; multiple trees: per-segment
counts or rate slices, concatenated) and write the alignment. -/
def seqgenRun {τ β : Type} [DecidableEq β] (leafNames : τ → β)
    (cfg : SeqGenConfig τ) : Except String SeqGenEvents :=
  match (if cfg.inputTreeMethod = "single" then
      Except.ok ([cfg.singleTree], [(0 : ℚ), 1])
    else if cfg.inputTreeMethod = "multiple" then readTrees leafNames cfg.treeLines
    else Except.error ("Unknown input.tree.method option: " ++ cfg.inputTreeMethod)) with
  | .error e => .error e
  | .ok tp =>
    if cfg.inputTreeMethod = "single" ∧ cfg.outputTreePath ≠ "none" then
      .ok ⟨some cfg.outputTreePath, false, 0, false⟩
    else
      match modelSetTry cfg.inputTreeMethod cfg.nhOpt with
      | .error e => .error e
      | .ok _ =>
        if cfg.infosFile ≠ "none" then
          if tp.1.length = 1 then
            .ok ⟨none, true, cfg.infosRates.length, true⟩
          else
            .ok ⟨none, true,
              ((rateSegments cfg.infosRates tp.2 tp.1.length).map List.length).sum, true⟩
        else
          if tp.1.length = 1 then
            .ok ⟨none, true, cfg.numberOfSites, true⟩
          else
            .ok ⟨none, true, (segSiteCounts tp.2 cfg.numberOfSites tp.1.length).sum, true⟩

/-- Outcome of a tool main function: exit code, whether usage help was
printed, and the console error message if any. -/
structure SeqGenMainOutcome where
  exitCode : ℤ
  printedHelp : Bool
  consoleMsg : Option String
deriving DecidableEq

/-- Main wrapper of bppSeqGen: no arguments prints help and exits 0; a
caught error prints the message and exits with status -1; otherwise 0. -/
def seqgenMain (argCount : ℕ) (body : Except String SeqGenEvents) : SeqGenMainOutcome :=
  if argCount = 1 then ⟨0, true, none⟩
  else
    match body with
    | .ok _ => ⟨0, false, none⟩
    | .error e => ⟨-1, false, some e⟩

/-- Concrete single-mode configuration with a tagged-tree output path. -/
def c10Cfg : SeqGenConfig ℕ :=
  ⟨"single", 7, [], "tagged.dnd", "none", [], "one_per_branch", 100⟩

/-- Concrete single-mode configuration with an unknown nonhomogeneous
option value. -/
def c8Cfg : SeqGenConfig ℕ :=
  ⟨"single", 7, [], "none", "none", [], "foo", 100⟩

/-! Embedding of bppPopStats.cpp.  The alignment type is a parameter; the
external estimators of bpp-popgen and the site-restriction helpers become
oracle functions.  Log-file output is modelled structurally: comment lines
and variable assignments with a name and a value. -/

/-- Value written after the equals sign of a log assignment. -/
inductive LogValue where
  | num (q : ℚ)
  | nums (l : List ℕ)
  | na
deriving DecidableEq

/-- One line of the popstats log file. -/
inductive LogLine where
  | comment (s : String)
  | assign (name : String) (value : LogValue)
deriving DecidableEq

/-- One action token after KeyvalTools::parseProcedure and argument
retrieval: the command name, the positions argument (default all), the
tot_mut flag (default true), and the output.file argument of
CodonSiteStatistics (default none). -/
structure PopAction where
  name : String
  positionsArg : String
  totMut : Bool
  outputFile : String
deriving DecidableEq

/-- Oracles for the external routines called by the popstats dispatcher,
over an abstract alignment type α.  codonAlphabet models the dynamic cast
of the alphabet; hasOutgroup models psc->hasOutgroup(), which decides
whether the outgroup view pscOut exists. -/
structure PopStatsOracles (α : Type) where
  codonAlphabet : Bool
  hasOutgroup : Bool
  pscIn : α
  numberOfPolymorphicSites : α → ℕ
  numberOfSingletons : α → ℕ
  watterson75 : α → ℚ
  tajima83 : α → ℚ
  tajimaDss : α → ℚ
  getSynonymousSites : α → α
  getNonSynonymousSites : α → α
  fuLiDStar : Bool → ℚ
  fuLiFStar : Bool → ℚ
  piSynonymous : α → ℚ
  piNonSynonymous : α → ℚ
  meanNumberOfSynonymousSites : α → ℚ
  meanNumberOfNonSynonymousSites : α → ℚ
  mkTable : List ℕ

/-- Site restriction of the TajimaD action: the container the statistic is
computed on, selected by the positions argument; none when the argument
is unrecognized. -/
def tajimaDRestrict {α : Type} (o : PopStatsOracles α) (positions : String) : Option α :=
  if positions = "synonymous" then some (o.getSynonymousSites o.pscIn)
  else if positions = "non-synonymous" then some (o.getNonSynonymousSites o.pscIn)
  else if positions = "all" then some o.pscIn
  else none

/-- One iteration of the popstats action dispatcher (bppPopStats.cpp main
loop), given the occurrence counter value k of this action name.  Returns
the log lines the branch writes, or the error it throws. -/
def runAction {α : Type} (o : PopStatsOracles α) (act : PopAction) (k : ℕ) :
    Except String (List LogLine) :=
  if act.name = "SiteFrequencies" then
    .ok [.comment "# Site frequencies",
         .assign ("NbSegSites" ++ sfx k) (.num (o.numberOfPolymorphicSites o.pscIn)),
         .assign ("NbSingl" ++ sfx k) (.num (o.numberOfSingletons o.pscIn))]
  else if act.name = "Watterson75" then
    .ok [.comment "# Watterson\x27s (1975) theta",
         .assign ("thetaW75" ++ sfx k) (.num (o.watterson75 o.pscIn))]
  else if act.name = "Tajima83" then
    .ok [.comment "# Tajima\x27s (1983) pi",
         .assign ("piT83" ++ sfx k) (.num (o.tajima83 o.pscIn))]
  else if act.name = "TajimaD" then
    if (act.positionsArg = "synonymous" ∨ act.positionsArg = "non-synonymous")
        ∧ ¬o.codonAlphabet then
      .error "Error: synonymous and non-synonymous positions can only be defined with a codon alphabet."
    else
      match tajimaDRestrict o act.positionsArg with
      | none => .error ("Unrecognized option for argument \x27positions\x27: " ++ act.positionsArg)
      | some pscTmp =>
        if 0 < o.numberOfPolymorphicSites pscTmp then
          .ok [.comment ("# Tajima\x27s (1989) D (" ++ act.positionsArg ++ " sites)"),
               .assign ("tajD" ++ sfx k) (.num (o.tajimaDss pscTmp))]
        else
          .ok [.comment ("# Tajima\x27s (1989) D (" ++ act.positionsArg ++ " sites)"),
               .assign ("tajD" ++ sfx k) .na]
  else if act.name = "FuAndLiDStar" then
    .ok [.comment "# Fu and Li\x27s (1993) D*",
         .assign ((if act.totMut then "fuLiDstarTotMut" else "fuLiDstarSegSit") ++ sfx k)
           (.num (o.fuLiDStar (!act.totMut)))]
  else if act.name = "FuAndLiFStar" then
    .ok [.comment "# Fu and Li\x27s (1993) F*",
         .assign ((if act.totMut then "fuLiFstarTotMut" else "fuLiFstarSegSit") ++ sfx k)
           (.num (o.fuLiFStar (!act.totMut)))]
  else if act.name = "PiN_PiS" then
    if ¬o.codonAlphabet then
      .error "PiN_PiS can only be used with a codon alignment. Check the input alphabet!"
    else
      .ok [.comment "# PiN and PiS",
           .assign ("PiN" ++ sfx k) (.num (o.piNonSynonymous o.pscIn)),
           .assign ("PiS" ++ sfx k) (.num (o.piSynonymous o.pscIn)),
           .assign ("NbN" ++ sfx k) (.num (o.meanNumberOfNonSynonymousSites o.pscIn)),
           .assign ("NbS" ++ sfx k) (.num (o.meanNumberOfSynonymousSites o.pscIn))]
  else if act.name = "MKT" then
    if ¬o.codonAlphabet then
      .error "MacDonald-Kreitman test can only be performed on a codon alignment. Check the input alphabet!"
    else if ¬o.hasOutgroup then
      .error "MacDonald-Kreitman test requires at least one outgroup sequence."
    else
      .ok [.comment "# MK table", .comment "# Pa Ps Da Ds",
           .assign ("MKtable" ++ sfx k) (.nums o.mkTable)]
  else if act.name = "CodonSiteStatistics" then
    if ¬o.codonAlphabet then
      .error "CodonSiteStatstics can only be used with a codon alignment. Check the input alphabet!"
    else if act.outputFile = "none" then
      .error "You must specify an ouptut file for CodonSiteStatistics"
    else
      .ok []
  else .error ("Unknown operation " ++ act.name ++ ".")

/-- Increment of the per-tool counter map toolCounter[cmdName]++. -/
def bumpCount (cnt : String → ℕ) (s : String) : String → ℕ :=
  fun t => if t = s then cnt t + 1 else cnt t

/-- The popstats action loop: each action first bumps the counter of its
name, then dispatches; log lines of completed actions persist, and the
first thrown error ends the loop. -/
def runActionsGo {α : Type} (o : PopStatsOracles α) :
    List PopAction → (String → ℕ) → List LogLine × Option String
  | [], _ => ([], none)
  | a :: rest, cnt =>
    match runAction o a (bumpCount cnt a.name a.name) with
    | .error e => ([], some e)
    | .ok ls =>
      (ls ++ (runActionsGo o rest (bumpCount cnt a.name)).1,
       (runActionsGo o rest (bumpCount cnt a.name)).2)

/-- Whole popstats action list, starting from an all-zero counter. -/
def runActions {α : Type} (o : PopStatsOracles α) (as : List PopAction) :
    List LogLine × Option String :=
  runActionsGo o as (fun _ => 0)

/-- Counter state after processing a list of actions. -/
def countAfter (cnt : String → ℕ) : List PopAction → (String → ℕ)
  | [] => cnt
  | a :: rest => countAfter (bumpCount cnt a.name) rest

/-- Names assigned by a list of log lines, in order. -/
def assignedNames (ls : List LogLine) : List String :=
  ls.filterMap (fun l => match l with
    | .assign n _ => some n
    | _ => none)

/-- Base log variable names of one action, before the occurrence suffix.
They follow the branches of runAction; actions that write no assignments
have none. -/
def actionBaseNames (act : PopAction) : List String :=
  if act.name = "SiteFrequencies" then ["NbSegSites", "NbSingl"]
  else if act.name = "Watterson75" then ["thetaW75"]
  else if act.name = "Tajima83" then ["piT83"]
  else if act.name = "TajimaD" then ["tajD"]
  else if act.name = "FuAndLiDStar" then
    [if act.totMut then "fuLiDstarTotMut" else "fuLiDstarSegSit"]
  else if act.name = "FuAndLiFStar" then
    [if act.totMut then "fuLiFstarTotMut" else "fuLiFstarSegSit"]
  else if act.name = "PiN_PiS" then ["PiN", "PiS", "NbN", "NbS"]
  else if act.name = "MKT" then ["MKtable"]
  else []

/-- Outcome of the popstats main function. -/
structure PopStatsMainOutcome where
  exitCode : ℤ
  printedHelp : Bool
  consoleMsg : Option String
  logLines : List LogLine
deriving DecidableEq

/-- Main wrapper of bppPopStats: no arguments prints help and returns 0;
otherwise the body runs, a caught error is appended to the configured log
prefixed with an error comment and echoed to the console with exit
status 1, and success returns 0. -/
def popstatsMain (argCount : ℕ) (logFile : String)
    (body : List LogLine × Option String) : PopStatsMainOutcome :=
  if argCount = 1 then ⟨0, true, none, []⟩
  else
    match body.2 with
    | none => ⟨0, false, none, if logFile ≠ "none" then body.1 else []⟩
    | some e =>
      ⟨1, false, some e,
       if logFile ≠ "none" then body.1 ++ [.comment ("# Error: " ++ e)] else []⟩

/-- Result of the stop-codon policy step: the filtered alignment columns
and whether a discard message was written. -/
structure StopPolicyOutcome (σ : Type) where
  sites : List σ
  wroteDiscardMsg : Bool
deriving DecidableEq

/-- Stop-codon policy step of bppPopStats.cpp, over the alignment columns.
CodonSiteTools::hasStop is the oracle hasStop; RemoveIfLast inspects the
last column (the C++ getSite call faults on an empty alignment, modelled
as an error); RemoveAll models SiteContainerTools::removeStopCodonSites.
Modelled from the spec: removeStopCodonSites is external library code, and
the specification describes it as dropping every column containing a stop
codon, which the filter below implements. -/
def applyStopCodonPolicy {σ : Type} (hasStop : σ → Bool) (policy : String)
    (sites : List σ) : Except String (StopPolicyOutcome σ) :=
  if policy = "Keep" then .ok ⟨sites, false⟩
  else if policy = "RemoveIfLast" then
    match sites.getLast? with
    | none => .error "Position out of range."
    | some lastSite =>
      if hasStop lastSite then .ok ⟨sites.dropLast, true⟩
      else .ok ⟨sites, false⟩
  else if policy = "RemoveAll" then
    let res := sites.filter (fun s => !(hasStop s))
    .ok ⟨res, decide (res.length ≠ sites.length)⟩
  else .error ("Unrecognized option for input.sequence.stop_codons_policy: " ++ policy)

/-- Concrete oracle over a trivial alignment type: no codon alphabet, no
outgroup, every estimator zero. -/
def oracleNat : PopStatsOracles ℕ :=
  ⟨false, false, 0, fun _ => 0, fun _ => 0, fun _ => 0, fun _ => 0, fun _ => 0,
   fun x => x, fun x => x, fun _ => 0, fun _ => 0, fun _ => 0, fun _ => 0,
   fun _ => 0, fun _ => 0, [0, 0, 0, 0]⟩

/-- Concrete TajimaD action with the default positions value. -/
def tajDAct : PopAction := ⟨"TajimaD", "all", true, "none"⟩

/-- Concrete PiN_PiS action. -/
def piNPiSAct : PopAction := ⟨"PiN_PiS", "all", true, "none"⟩

instance digitFreeDecidable (s : String) : Decidable (digitFree s) :=
  inferInstanceAs (Decidable (∀ c ∈ s.data, c.isDigit = false))

/-- Concrete SiteFrequencies action. -/
def siteFreqAct : PopAction := ⟨"SiteFrequencies", "all", true, "none"⟩

theorem natDigitsAux_fuel_irrel (f1 : ℕ) : ∀ f2 n, n < f1 → n < f2 →
    natDigitsAux f1 n = natDigitsAux f2 n := by
  induction f1 with
  | zero => intro f2 n h1 _; omega
  | succ g ih =>
    intro f2 n h1 h2
    cases f2 with
    | zero => omega
    | succ g2 =>
      simp only [natDigitsAux]
      by_cases h10 : n < 10
      · simp [h10]
      · rw [if_neg h10, if_neg h10]
        have hd : n / 10 < n := Nat.div_lt_self (by omega) (by omega)
        rw [ih g2 (n / 10) (by omega) (by omega)]

theorem natDigits_eq (n : ℕ) : natDigits n =
    if n < 10 then [digitChar10 n]
    else natDigits (n / 10) ++ [digitChar10 (n % 10)] := by
  by_cases h10 : n < 10
  · rw [if_pos h10]
    unfold natDigits
    simp [natDigitsAux, h10]
  · rw [if_neg h10]
    have hd : n / 10 < n := Nat.div_lt_self (by omega) (by omega)
    have h1 : natDigits n = natDigitsAux n (n / 10) ++ [digitChar10 (n % 10)] := by
      unfold natDigits
      simp only [natDigitsAux]
      rw [if_neg h10]
    rw [h1]
    unfold natDigits
    congr 1
    exact natDigitsAux_fuel_irrel n (n / 10 + 1) (n / 10) (by omega) (by omega)

theorem natDigits_ne_nil (n : ℕ) : natDigits n ≠ [] := by
  rw [natDigits_eq]
  split <;> simp

theorem digitChar10_isDigit (d : ℕ) (h : d < 10) : (digitChar10 d).isDigit = true := by
  interval_cases d <;> decide

theorem digitChar10_toNat (d : ℕ) (h : d < 10) : (digitChar10 d).toNat = 48 + d := by
  interval_cases d <;> decide

theorem natDigits_all_digit (n : ℕ) : ∀ c ∈ natDigits n, c.isDigit = true := by
  induction n using Nat.strong_induction_on with
  | _ n ih =>
    rw [natDigits_eq]
    by_cases h10 : n < 10
    · rw [if_pos h10]
      intro c hc
      simp at hc
      subst hc
      exact digitChar10_isDigit n h10
    · rw [if_neg h10]
      intro c hc
      rcases List.mem_append.1 hc with h1 | h1
      · exact ih (n / 10) (Nat.div_lt_self (by omega) (by omega)) c h1
      · simp at h1
        subst h1
        exact digitChar10_isDigit (n % 10) (Nat.mod_lt _ (by omega))

theorem evalDigits_append_singleton (l : List Char) (c : Char) :
    evalDigits (l ++ [c]) = 10 * evalDigits l + (c.toNat - 48) := by
  unfold evalDigits
  rw [List.foldl_append]
  rfl

theorem evalDigits_natDigits (n : ℕ) : evalDigits (natDigits n) = n := by
  induction n using Nat.strong_induction_on with
  | _ n ih =>
    rw [natDigits_eq]
    by_cases h10 : n < 10
    · rw [if_pos h10]
      show 10 * 0 + ((digitChar10 n).toNat - 48) = n
      rw [digitChar10_toNat n h10]
      omega
    · rw [if_neg h10]
      rw [evalDigits_append_singleton]
      rw [ih (n / 10) (Nat.div_lt_self (by omega) (by omega))]
      rw [digitChar10_toNat (n % 10) (Nat.mod_lt _ (by omega))]
      omega

theorem natDigits_injective (m n : ℕ) (h : natDigits m = natDigits n) : m = n := by
  have := evalDigits_natDigits m
  rw [h, evalDigits_natDigits] at this
  omega

/-- Letter-digit separation: if two character lists each split into a
digit-free part followed by an all-digit part and the concatenations agree,
the parts agree. -/
theorem append_digit_split (xs1 : List Char) : ∀ xs2 ys1 ys2 : List Char,
    (∀ c ∈ xs1, c.isDigit = false) → (∀ c ∈ xs2, c.isDigit = false) →
    (∀ c ∈ ys1, c.isDigit = true) → (∀ c ∈ ys2, c.isDigit = true) →
    xs1 ++ ys1 = xs2 ++ ys2 → xs1 = xs2 ∧ ys1 = ys2 := by
  induction xs1 with
  | nil =>
    intro xs2 ys1 ys2 _ hx2 hy1 _ heq
    cases xs2 with
    | nil => exact ⟨rfl, heq⟩
    | cons c t =>
      exfalso
      have hc : c ∈ ys1 := by
        rw [List.nil_append] at heq
        rw [heq]
        exact List.mem_append.2 (Or.inl (List.mem_cons_self c t))
      have h1 := hy1 c hc
      have h2 := hx2 c (List.mem_cons_self c t)
      rw [h1] at h2
      exact Bool.noConfusion h2
  | cons c t ih =>
    intro xs2 ys1 ys2 hx1 hx2 hy1 hy2 heq
    cases xs2 with
    | nil =>
      exfalso
      have hc : c ∈ ys2 := by
        rw [List.nil_append] at heq
        rw [← heq]
        exact List.mem_append.2 (Or.inl (List.mem_cons_self c t))
      have h1 := hy2 c hc
      have h2 := hx1 c (List.mem_cons_self c t)
      rw [h1] at h2
      exact Bool.noConfusion h2
    | cons c2 t2 =>
      simp only [List.cons_append, List.cons.injEq] at heq
      obtain ⟨hc, ht⟩ := heq
      subst hc
      have := ih t2 ys1 ys2 (fun x hx => hx1 x (List.mem_cons_of_mem _ hx))
        (fun x hx => hx2 x (List.mem_cons_of_mem _ hx)) hy1 hy2 ht
      exact ⟨by rw [this.1], this.2⟩

theorem sfx_data_all_digit (k : ℕ) : ∀ c ∈ (sfx k).data, c.isDigit = true := by
  unfold sfx
  split
  · intro c hc
    exact natDigits_all_digit k c hc
  · intro c hc
    simp [String.data] at hc

/-- Appending occurrence suffixes to digit-free base names is injective in
the pair of base name and occurrence number, for positive occurrence
numbers. -/
theorem base_sfx_injective (b1 b2 : String) (h1 : digitFree b1) (h2 : digitFree b2)
    (j k : ℕ) (hj : 1 ≤ j) (hk : 1 ≤ k)
    (h : b1 ++ sfx j = b2 ++ sfx k) : b1 = b2 ∧ j = k := by
  have hdata : b1.data ++ (sfx j).data = b2.data ++ (sfx k).data := by
    rw [← String.data_append, ← String.data_append, h]
  have hsplit := append_digit_split b1.data b2.data (sfx j).data (sfx k).data
    h1 h2 (sfx_data_all_digit j) (sfx_data_all_digit k) hdata
  refine ⟨String.ext hsplit.1, ?_⟩
  have hs : sfx j = sfx k := String.ext hsplit.2
  unfold sfx at hs
  by_cases hj1 : j > 1 <;> by_cases hk1 : k > 1
  · rw [if_pos hj1, if_pos hk1] at hs
    unfold toDecimalString at hs
    exact natDigits_injective j k (by
      have := congrArg String.data hs
      simpa using this)
  · rw [if_pos hj1, if_neg hk1] at hs
    exfalso
    have := congrArg String.data hs
    simp [toDecimalString] at this
    exact natDigits_ne_nil j this
  · rw [if_neg hj1, if_pos hk1] at hs
    exfalso
    have := congrArg String.data hs
    simp [toDecimalString] at this
    exact natDigits_ne_nil k this
  · omega

theorem readTreesGo_ok_iff {τ β : Type} [DecidableEq β] (leafNames : τ → β) :
    ∀ (ls : List (TreeLine τ)) (trees : List τ) (pos : List ℚ) (prev : ℚ)
      (ts : List τ) (ps : List ℚ),
    readTreesGo leafNames ls trees pos prev = .ok (ts, ps) ↔
      (alignedB prev ls = true ∧
       leafOkB leafNames (trees.getLast?.map leafNames) ls = true ∧
       ts = trees ++ ls.map TreeLine.tree ∧ ps = pos ++ ls.map TreeLine.epos) := by
  intro ls
  induction ls with
  | nil =>
    intro trees pos prev ts ps
    simp [readTreesGo, alignedB, leafOkB, eq_comm]
  | cons l ls ih =>
    intro trees pos prev ts ps
    constructor
    · intro h
      unfold readTreesGo at h
      rcases hlast : trees.getLast? with _ | t
      · rw [hlast] at h
        simp only at h
        by_cases hb : l.bpos = prev
        · rw [if_pos hb] at h
          have := (ih (trees ++ [l.tree]) (pos ++ [l.epos]) l.epos ts ps).1 h
          obtain ⟨ha, hl, hts, hps⟩ := this
          refine ⟨by simp [alignedB, hb, ha], ?_, by simpa using hts, by simpa using hps⟩
          simp only [Option.map_none, leafOkB, Bool.true_and]
          rw [List.getLast?_concat] at hl
          simpa using hl
        · rw [if_neg hb] at h
          exact absurd h (by simp)
      · rw [hlast] at h
        simp only at h
        by_cases hn : leafNames l.tree = leafNames t
        · rw [if_pos hn] at h
          by_cases hb : l.bpos = prev
          · rw [if_pos hb] at h
            have := (ih (trees ++ [l.tree]) (pos ++ [l.epos]) l.epos ts ps).1 h
            obtain ⟨ha, hl, hts, hps⟩ := this
            refine ⟨by simp [alignedB, hb, ha], ?_, by simpa using hts, by simpa using hps⟩
            simp only [Option.map_some, leafOkB]
            rw [List.getLast?_concat] at hl
            exact Bool.and_eq_true_iff.2 ⟨by simp [hn], by simpa using hl⟩
          · rw [if_neg hb] at h
            exact absurd h (by simp)
        · rw [if_neg hn] at h
          exact absurd h (by simp)
    · intro ⟨ha, hl, hts, hps⟩
      unfold readTreesGo
      unfold alignedB at ha
      have hb : l.bpos = prev := by
        by_contra hcon
        rw [if_neg hcon] at ha
        exact Bool.noConfusion ha
      rw [if_pos hb] at ha
      rcases hlast : trees.getLast? with _ | t
      · rw [hlast] at hl
        simp only [Option.map_none, leafOkB, Bool.true_and] at hl
        simp only
        rw [if_pos hb]
        exact (ih (trees ++ [l.tree]) (pos ++ [l.epos]) l.epos ts ps).2
          ⟨ha, by rw [List.getLast?_concat]; simpa using hl,
           by simpa using hts, by simpa using hps⟩
      · rw [hlast] at hl
        simp only [Option.map_some, leafOkB] at hl
        have hn : leafNames l.tree = leafNames t := by
          rcases Bool.and_eq_true_iff.1 hl with ⟨h1, _⟩
          exact of_decide_eq_true h1
        simp only
        rw [if_pos hn, if_pos hb]
        refine (ih (trees ++ [l.tree]) (pos ++ [l.epos]) l.epos ts ps).2
          ⟨ha, ?_, by simpa using hts, by simpa using hps⟩
        rw [List.getLast?_concat]
        rcases Bool.and_eq_true_iff.1 hl with ⟨_, h2⟩
        simpa using h2

theorem leafOkB_some_all {τ β : Type} [DecidableEq β] (leafNames : τ → β) :
    ∀ (ls : List (TreeLine τ)) (c : β), leafOkB leafNames (some c) ls = true →
    ∀ l ∈ ls, leafNames l.tree = c := by
  intro ls
  induction ls with
  | nil => intro c _ l hl; simp at hl
  | cons l ls ih =>
    intro c hok x hx
    unfold leafOkB at hok
    rcases Bool.and_eq_true_iff.1 hok with ⟨h1, h2⟩
    have hl : leafNames l.tree = c := of_decide_eq_true h1
    rcases List.mem_cons.1 hx with hx | hx
    · rw [hx]; exact hl
    · have := ih (leafNames l.tree) h2 x hx
      rw [this, hl]

theorem leafOkB_none_all {τ β : Type} [DecidableEq β] (leafNames : τ → β)
    (ls : List (TreeLine τ)) (hok : leafOkB leafNames none ls = true) :
    ∀ a ∈ ls, ∀ b ∈ ls, leafNames a.tree = leafNames b.tree := by
  cases ls with
  | nil => intro a ha; simp at ha
  | cons l t =>
    intro a ha b hb
    unfold leafOkB at hok
    rw [Bool.true_and] at hok
    have key : ∀ x ∈ l :: t, leafNames x.tree = leafNames l.tree := by
      intro x hx
      rcases List.mem_cons.1 hx with hx | hx
      · rw [hx]
      · exact leafOkB_some_all leafNames t (leafNames l.tree) hok x hx
    rw [key a ha, key b hb]

theorem alignedB_index {τ : Type} :
    ∀ (ls : List (TreeLine τ)) (prev : ℚ), alignedB prev ls = true →
    ∀ i (h : i < ls.length),
      (ls.get ⟨i, h⟩).bpos = (prev :: ls.map TreeLine.epos).getD i 0 := by
  intro ls
  induction ls with
  | nil => intro prev _ i h; simp at h
  | cons l ls ih =>
    intro prev ha i h
    unfold alignedB at ha
    have hb : l.bpos = prev := by
      by_contra hcon
      rw [if_neg hcon] at ha
      exact Bool.noConfusion ha
    rw [if_pos hb] at ha
    cases i with
    | zero => simpa using hb
    | succ j =>
      have hj : j < ls.length := by simpa using h
      have := ih l.epos ha j hj
      simpa using this

/-- C3: when loading a multi-segment tree file, every tree whose leaf-name
set differs from that of the first tree makes loading fail, and a successful load
returns exactly the trees of the input lines, all sharing one leaf-name
set (hence that of the first tree). -/
theorem readTrees_leafNames_consistent {τ β : Type} [DecidableEq β]
    (leafNames : τ → β) (lines : List (TreeLine τ)) :
    (∀ ts ps, readTrees leafNames lines = .ok (ts, ps) →
       ts = lines.map TreeLine.tree ∧
       ∀ t ∈ ts, ∀ u ∈ ts, leafNames t = leafNames u) ∧
    (∀ l0, lines.head? = some l0 →
       ∀ l ∈ lines, leafNames l.tree ≠ leafNames l0.tree →
       ∃ e, readTrees leafNames lines = .error e) := by
  have main : ∀ ts ps, readTrees leafNames lines = .ok (ts, ps) →
      ts = lines.map TreeLine.tree ∧
      ∀ t ∈ ts, ∀ u ∈ ts, leafNames t = leafNames u := by
    intro ts ps h
    unfold readTrees at h
    have := (readTreesGo_ok_iff leafNames lines [] [0] 0 ts ps).1 h
    obtain ⟨_, hleaf, hts, _⟩ := this
    simp only [List.getLast?_nil, Option.map_none] at hleaf
    rw [List.nil_append] at hts
    refine ⟨hts, ?_⟩
    intro t ht u hu
    rw [hts] at ht hu
    rcases List.mem_map.1 ht with ⟨a, ha, rfl⟩
    rcases List.mem_map.1 hu with ⟨b, hb, rfl⟩
    exact leafOkB_none_all leafNames lines hleaf a ha b hb
  refine ⟨main, ?_⟩
  intro l0 hhead l hl hne
  cases hres : readTrees leafNames lines with
  | error e => exact ⟨e, rfl⟩
  | ok pair =>
    exfalso
    obtain ⟨hts, hall⟩ := main pair.1 pair.2 (by rw [hres])
    have hl0 : l0 ∈ lines := by
      cases lines with
      | nil => simp at hhead
      | cons a t =>
        simp only [List.head?_cons, Option.some.injEq] at hhead
        rw [← hhead]
        exact List.mem_cons_self a t
    have h1 : l.tree ∈ pair.1 := by
      rw [hts]; exact List.mem_map.2 ⟨l, hl, rfl⟩
    have h2 : l0.tree ∈ pair.1 := by
      rw [hts]; exact List.mem_map.2 ⟨l0, hl0, rfl⟩
    exact hne (hall l.tree h1 l0.tree h2)

theorem readTrees_leafNames_consistent_witness :
    [5, 5] = c3Lines.map TreeLine.tree :=
  ((readTrees_leafNames_consistent (fun x : ℕ => x) c3Lines).1
    [5, 5] [0, 1, 1] (by decide)).1

/-- C7: a successful multi-segment load returns the boundary list 0
followed by the end position of each line, of length treeCount plus one; any
line whose begin position differs from the end position of the previous line
(the implicit previous end of the first line being 0) makes loading fail. -/
theorem readTrees_segment_contiguity {τ β : Type} [DecidableEq β]
    (leafNames : τ → β) (lines : List (TreeLine τ)) :
    (∀ ts ps, readTrees leafNames lines = .ok (ts, ps) →
       ps = 0 :: lines.map TreeLine.epos ∧
       ps.length = ts.length + 1 ∧ ps.head? = some 0) ∧
    (∀ i (h : i < lines.length),
       (lines.get ⟨i, h⟩).bpos ≠ ((0 : ℚ) :: lines.map TreeLine.epos).getD i 0 →
       ∃ e, readTrees leafNames lines = .error e) ∧
    (∀ i (h : i < lines.length), 0 < i →
       ((0 : ℚ) :: lines.map TreeLine.epos).getD i 0
         = (lines.get ⟨i - 1, by omega⟩).epos) := by
  refine ⟨?_, ?_, ?_⟩
  · intro ts ps h
    unfold readTrees at h
    have := (readTreesGo_ok_iff leafNames lines [] [0] 0 ts ps).1 h
    obtain ⟨_, _, hts, hps⟩ := this
    rw [List.nil_append] at hts
    constructor
    · simpa using hps
    · constructor
      · rw [hts, hps]
        simp
      · rw [hps]
        simp
  · intro i h hne
    cases hres : readTrees leafNames lines with
    | error e => exact ⟨e, rfl⟩
    | ok pair =>
      exfalso
      unfold readTrees at hres
      have := (readTreesGo_ok_iff leafNames lines [] [0] 0 pair.1 pair.2).1 hres
      obtain ⟨halign, _, _, _⟩ := this
      exact hne (alignedB_index lines 0 halign i h)
  · intro i h hpos
    cases i with
    | zero => omega
    | succ j =>
      simp only [List.getD_cons_succ, Nat.add_sub_cancel]
      have hj : j < (lines.map TreeLine.epos).length := by
        simp only [List.length_map]
        omega
      rw [List.getD_eq_getElem (lines.map TreeLine.epos) 0 hj]
      simp

theorem readTrees_segment_contiguity_witness :
    ([(0 : ℚ), 1, 1] : List ℚ).head? = some 0 :=
  ((readTrees_segment_contiguity (fun x : ℕ => x) c3Lines).1
    [5, 5] [0, 1, 1] (by decide)).2.2

/-- C10: in single-tree mode, a configured output.tree.path makes bppSeqGen
write the tagged tree and exit with status 0, performing no simulation and
writing no alignment, regardless of all other simulation parameters. -/
theorem seqgen_outputTree_early_exit {τ β : Type} [DecidableEq β]
    (leafNames : τ → β) (cfg : SeqGenConfig τ)
    (h1 : cfg.inputTreeMethod = "single") (h2 : cfg.outputTreePath ≠ "none") :
    seqgenRun leafNames cfg = .ok ⟨some cfg.outputTreePath, false, 0, false⟩ ∧
    ∀ argCount, argCount ≠ 1 →
      seqgenMain argCount (seqgenRun leafNames cfg) = ⟨0, false, none⟩ := by
  have hrun : seqgenRun leafNames cfg = .ok ⟨some cfg.outputTreePath, false, 0, false⟩ := by
    unfold seqgenRun
    rw [if_pos h1]
    simp only
    rw [if_pos ⟨h1, h2⟩]
  refine ⟨hrun, ?_⟩
  intro argCount hc
  unfold seqgenMain
  rw [if_neg hc, hrun]

theorem seqgen_outputTree_early_exit_witness :
    seqgenMain 2 (seqgenRun (fun x : ℕ => x) c10Cfg) = ⟨0, false, none⟩ :=
  (seqgen_outputTree_early_exit (fun x : ℕ => x) c10Cfg rfl (by decide)).2
    2 (by decide)

/-- C8: with multiple tree segments the non-homogeneous modes
one_per_branch and general fail before any simulation; in single-tree mode
(without the tagged-tree early exit) they proceed to resolve a model set
and simulate; an unknown nonhomogeneous option value fails. -/
theorem seqgen_nonhomogeneous_modes {τ β : Type} [DecidableEq β]
    (leafNames : τ → β) (cfg : SeqGenConfig τ) :
    (cfg.inputTreeMethod = "multiple" → 1 < cfg.treeLines.length →
       (cfg.nhOpt = "one_per_branch" ∨ cfg.nhOpt = "general") →
       ∃ e, seqgenRun leafNames cfg = .error e) ∧
    (cfg.inputTreeMethod = "single" → cfg.outputTreePath = "none" →
       (cfg.nhOpt = "one_per_branch" ∨ cfg.nhOpt = "general") →
       ∃ ev, seqgenRun leafNames cfg = .ok ev ∧ ev.simulated = true) ∧
    (cfg.inputTreeMethod = "single" → cfg.outputTreePath = "none" →
       cfg.nhOpt ≠ "no" → cfg.nhOpt ≠ "one_per_branch" → cfg.nhOpt ≠ "general" →
       seqgenRun leafNames cfg =
         .error ("Unknown non-homogeneous option: " ++ cfg.nhOpt)) := by
  have hmodelbad : (cfg.nhOpt = "one_per_branch" ∨ cfg.nhOpt = "general") →
      modelSetTry "multiple" cfg.nhOpt =
        .error "Multiple input trees cannot be used with non-homogeneous simulations." := by
    intro hnh
    rcases hnh with h | h <;> rw [h] <;> rfl
  have hmodelok : (cfg.nhOpt = "one_per_branch" ∨ cfg.nhOpt = "general") →
      modelSetTry "single" cfg.nhOpt = .ok () := by
    intro hnh
    rcases hnh with h | h <;> rw [h] <;> rfl
  refine ⟨?_, ?_, ?_⟩
  · intro hm _ hnh
    unfold seqgenRun
    rw [hm]
    cases hread : readTrees leafNames cfg.treeLines with
    | error e => exact ⟨e, by simp [hread]⟩
    | ok tp =>
      exact ⟨"Multiple input trees cannot be used with non-homogeneous simulations.",
        by simp [hread, hmodelbad hnh]⟩
  · intro hs hpath hnh
    unfold seqgenRun
    rw [hs, hpath]
    by_cases hinfo : cfg.infosFile = "none"
    · exact ⟨⟨none, true, cfg.numberOfSites, true⟩, by simp [hmodelok hnh, hinfo], rfl⟩
    · exact ⟨⟨none, true, cfg.infosRates.length, true⟩, by simp [hmodelok hnh, hinfo], rfl⟩
  · intro hs hpath h1 h2 h3
    unfold seqgenRun
    rw [hs, hpath]
    have hm3 : modelSetTry "single" cfg.nhOpt =
        .error ("Unknown non-homogeneous option: " ++ cfg.nhOpt) := by
      unfold modelSetTry
      rw [if_neg h1, if_neg h2, if_neg h3]
    simp [hm3]

theorem seqgen_nonhomogeneous_modes_witness :
    seqgenRun (fun x : ℕ => x) c8Cfg =
      .error ("Unknown non-homogeneous option: " ++ "foo") :=
  (seqgen_nonhomogeneous_modes (fun x : ℕ => x) c8Cfg).2.2 rfl rfl
    (by decide) (by decide) (by decide)

theorem cround_two : cround (2 : ℚ) = 2 := by
  unfold cround
  rw [if_neg (by norm_num)]
  rw [Int.floor_eq_iff]
  constructor <;> norm_num

theorem cround_four : cround (4 : ℚ) = 4 := by
  unfold cround
  rw [if_neg (by norm_num)]
  rw [Int.floor_eq_iff]
  constructor <;> norm_num

/-- C1: evaluation of the two multi-segment branches on 4 sites with
boundary fractions [0, 1/2, 1].  The number_of_sites branch partitions the
sites as [2, 2] as the specification describes, but the rate-file branch
slices the rates of sites 0 and 1 for segment 0 and only the rate of
site 3 for segment 1, skipping the rate of site 2, so the concatenated
alignment has 3 sites instead of 4. -/
theorem rateFile_partition_eval :
    segSiteCounts [0, 1/2, 1] 4 2 = [2, 2] ∧
    rateSegments [10, 11, 12, 13] [0, 1/2, 1] 2 = [[10, 11], [13]] ∧
    ((rateSegments [10, 11, 12, 13] [0, 1/2, 1] 2).map List.length).sum = 3 := by
  have hmul1 : ((1 : ℚ)/2 * ((4 : ℕ) : ℚ)) = 2 := by push_cast; norm_num
  have hmul2 : ((1 : ℚ) * ((4 : ℕ) : ℚ)) = 4 := by push_cast; norm_num
  have hc2 : castUInt 2 = 2 := by decide
  have hc4 : castUInt 4 = 4 := by decide
  have key1 : segSiteCounts [0, 1/2, 1] 4 2 = [2, 2] := by
    unfold segSiteCounts
    simp only [segLoopAux, List.getD_cons_succ, List.getD_cons_zero]
    rw [hmul1, hmul2, cround_two, cround_four, hc2, hc4]
    decide
  have key2 : rateSegments [10, 11, 12, 13] [0, 1/2, 1] 2 = [[10, 11], [13]] := by
    unfold rateSegments
    simp only [rateSegLoopAux, List.getD_cons_succ, List.getD_cons_zero,
      List.length_cons, List.length_nil]
    norm_num
    rw [cround_two, cround_four, hc2, hc4]
    decide
  refine ⟨key1, key2, ?_⟩
  rw [key2]
  decide

/-- C4: with a codon alphabet, the stop-codon policy Keep leaves the
alignment unchanged; RemoveIfLast drops the final column exactly when it
contains a stop codon and writes a discard message exactly then;
RemoveAll keeps exactly the columns without stop codons; any other
policy value fails with an error. -/
theorem stop_codon_policy_cases {σ : Type} (hasStop : σ → Bool) (sites : List σ) :
    applyStopCodonPolicy hasStop "Keep" sites = .ok ⟨sites, false⟩ ∧
    (∀ lastSite, sites.getLast? = some lastSite →
       applyStopCodonPolicy hasStop "RemoveIfLast" sites =
         (if hasStop lastSite then .ok ⟨sites.dropLast, true⟩
          else .ok ⟨sites, false⟩)) ∧
    (∃ out, applyStopCodonPolicy hasStop "RemoveAll" sites = .ok out ∧
       out.sites.Sublist sites ∧
       (∀ s ∈ out.sites, hasStop s = false) ∧
       (∀ s ∈ sites, hasStop s = false → s ∈ out.sites) ∧
       (out.wroteDiscardMsg = false ↔ out.sites.length = sites.length)) ∧
    (∀ policy, policy ≠ "Keep" → policy ≠ "RemoveIfLast" → policy ≠ "RemoveAll" →
       ∃ e, applyStopCodonPolicy hasStop policy sites = .error e) := by
  refine ⟨rfl, ?_, ?_, ?_⟩
  · intro lastSite h
    simp only [applyStopCodonPolicy, String.reduceEq, if_false, if_true, h]
  · refine ⟨⟨sites.filter (fun s => !(hasStop s)),
      decide ((sites.filter (fun s => !(hasStop s))).length ≠ sites.length)⟩,
      ?_, ?_, ?_, ?_, ?_⟩
    · simp [applyStopCodonPolicy]
    · exact List.filter_sublist sites
    · intro s hs
      have := (List.mem_filter.1 hs).2
      simpa using this
    · intro s hs hns
      exact List.mem_filter.2 ⟨hs, by simp [hns]⟩
    · by_cases hlen : (sites.filter (fun s => !(hasStop s))).length = sites.length <;>
        simp [hlen]
  · intro policy h1 h2 h3
    refine ⟨"Unrecognized option for input.sequence.stop_codons_policy: " ++ policy, ?_⟩
    unfold applyStopCodonPolicy
    rw [if_neg h1, if_neg h2, if_neg h3]

theorem stop_codon_policy_cases_witness :
    applyStopCodonPolicy (fun n : ℕ => decide (n = 9)) "RemoveIfLast" [1, 2, 9] =
      .ok ⟨[1, 2], true⟩ := by
  have h := (stop_codon_policy_cases (fun n : ℕ => decide (n = 9)) [1, 2, 9]).2.1
    9 (by decide)
  simpa using h

/-- C2: the TajimaD action fails when synonymous or non-synonymous
positions are requested without a codon alphabet; with a recognized
positions value and zero polymorphic sites in the restricted container it
reports NA without invoking the estimator (the reported lines do not
depend on the estimator); with polymorphic sites present it reports the
numeric estimator value; an unrecognized positions value fails. -/
theorem tajimaD_action_cases {α : Type} (o : PopStatsOracles α) (act : PopAction)
    (k : ℕ) (hname : act.name = "TajimaD") :
    ((act.positionsArg = "synonymous" ∨ act.positionsArg = "non-synonymous") →
       o.codonAlphabet = false →
       runAction o act k =
         .error "Error: synonymous and non-synonymous positions can only be defined with a codon alphabet.") ∧
    (∀ pscTmp, tajimaDRestrict o act.positionsArg = some pscTmp →
       (act.positionsArg = "all" ∨ o.codonAlphabet = true) →
       (o.numberOfPolymorphicSites pscTmp = 0 →
          runAction o act k =
            .ok [.comment ("# Tajima\x27s (1989) D (" ++ act.positionsArg ++ " sites)"),
                 .assign ("tajD" ++ sfx k) .na]) ∧
       (0 < o.numberOfPolymorphicSites pscTmp →
          runAction o act k =
            .ok [.comment ("# Tajima\x27s (1989) D (" ++ act.positionsArg ++ " sites)"),
                 .assign ("tajD" ++ sfx k) (.num (o.tajimaDss pscTmp))])) ∧
    (tajimaDRestrict o act.positionsArg = none →
       runAction o act k =
         .error ("Unrecognized option for argument \x27positions\x27: " ++ act.positionsArg)) := by
  have hstep : runAction o act k =
      (if (act.positionsArg = "synonymous" ∨ act.positionsArg = "non-synonymous")
          ∧ ¬o.codonAlphabet then
        .error "Error: synonymous and non-synonymous positions can only be defined with a codon alphabet."
      else
        match tajimaDRestrict o act.positionsArg with
        | none => .error ("Unrecognized option for argument \x27positions\x27: " ++ act.positionsArg)
        | some pscTmp =>
          if 0 < o.numberOfPolymorphicSites pscTmp then
            .ok [.comment ("# Tajima\x27s (1989) D (" ++ act.positionsArg ++ " sites)"),
                 .assign ("tajD" ++ sfx k) (.num (o.tajimaDss pscTmp))]
          else
            .ok [.comment ("# Tajima\x27s (1989) D (" ++ act.positionsArg ++ " sites)"),
                 .assign ("tajD" ++ sfx k) .na]) := by
    unfold runAction
    rw [hname]
    simp
  refine ⟨?_, ?_, ?_⟩
  · intro hpos hcodon
    rw [hstep, if_pos ⟨hpos, by simp [hcodon]⟩]
  · intro pscTmp hres hok
    have hcond : ¬((act.positionsArg = "synonymous" ∨ act.positionsArg = "non-synonymous")
        ∧ ¬o.codonAlphabet) := by
      rcases hok with h | h
      · intro ⟨hd, _⟩
        rcases hd with hd | hd <;> rw [h] at hd <;> exact absurd hd (by decide)
      · intro ⟨_, hnc⟩
        exact hnc (by rw [h])
    rw [hstep, if_neg hcond, hres]
    constructor
    · intro hz
      simp [hz]
    · intro hp
      simp [hp]
  · intro hnone
    have hns : ¬(act.positionsArg = "synonymous") := by
      intro hc
      rw [tajimaDRestrict, if_pos hc] at hnone
      exact Option.noConfusion hnone
    have hnn : ¬(act.positionsArg = "non-synonymous") := by
      intro hc
      unfold tajimaDRestrict at hnone
      rw [if_neg hns, if_pos hc] at hnone
      exact Option.noConfusion hnone
    rw [hstep, if_neg (by simp [hns, hnn]), hnone]

theorem tajimaD_action_cases_witness :
    runAction oracleNat tajDAct 1 =
      .ok [.comment ("# Tajima\x27s (1989) D (" ++ tajDAct.positionsArg ++ " sites)"),
           .assign ("tajD" ++ sfx 1) .na] :=
  ((tajimaD_action_cases oracleNat tajDAct 1 rfl).2.1 oracleNat.pscIn rfl
    (Or.inl rfl)).1 rfl

theorem runActionsGo_error_propagates {α : Type} (o : PopStatsOracles α)
    (act : PopAction) (herr : ∀ k, ∃ e, runAction o act k = .error e) :
    ∀ (as : List PopAction) (cnt : String → ℕ), act ∈ as →
    ∃ e, (runActionsGo o as cnt).2 = some e := by
  intro as
  induction as with
  | nil => intro cnt h; simp at h
  | cons a rest ih =>
    intro cnt hmem
    unfold runActionsGo
    cases hra : runAction o a (bumpCount cnt a.name a.name) with
    | error e => exact ⟨e, by simp⟩
    | ok ls =>
      rcases List.mem_cons.1 hmem with heq | hmem2
      · exfalso
        obtain ⟨e, he⟩ := herr (bumpCount cnt a.name a.name)
        rw [heq] at he
        rw [hra] at he
        exact Except.noConfusion he
      · obtain ⟨e, he⟩ := ih (bumpCount cnt a.name) hmem2
        exact ⟨e, by simp [he]⟩

/-- C5: the actions PiN_PiS, MKT and CodonSiteStatistics fail with a
precondition error whenever the alphabet is not a codon alphabet, and MKT
fails when no outgroup sequence is tagged; the error aborts the whole
dispatcher loop and the run exits with status 1. -/
theorem codon_outgroup_preconditions {α : Type} (o : PopStatsOracles α)
    (as : List PopAction) (act : PopAction) (hmem : act ∈ as)
    (hbad : ((act.name = "PiN_PiS" ∨ act.name = "MKT" ∨ act.name = "CodonSiteStatistics") ∧
              o.codonAlphabet = false) ∨
            (act.name = "MKT" ∧ o.hasOutgroup = false)) :
    (∀ k, ∃ e, runAction o act k = .error e) ∧
    (∃ e, (runActions o as).2 = some e) ∧
    (∀ argCount logFile, argCount ≠ 1 →
       (popstatsMain argCount logFile (runActions o as)).exitCode = 1) := by
  have herr : ∀ k, ∃ e, runAction o act k = .error e := by
    intro k
    rcases hbad with ⟨hn, hcodon⟩ | ⟨hn, hout⟩
    · rcases hn with h | h | h
      · exact ⟨"PiN_PiS can only be used with a codon alignment. Check the input alphabet!",
          by rw [runAction, h]; simp [hcodon]⟩
      · exact ⟨"MacDonald-Kreitman test can only be performed on a codon alignment. Check the input alphabet!",
          by rw [runAction, h]; simp [hcodon]⟩
      · exact ⟨"CodonSiteStatstics can only be used with a codon alignment. Check the input alphabet!",
          by rw [runAction, h]; simp [hcodon]⟩
    · by_cases hc : o.codonAlphabet
      · exact ⟨"MacDonald-Kreitman test requires at least one outgroup sequence.",
          by rw [runAction, hn]; simp [hc, hout]⟩
      · exact ⟨"MacDonald-Kreitman test can only be performed on a codon alignment. Check the input alphabet!",
          by rw [runAction, hn]; simp [hc]⟩
  have hrun : ∃ e, (runActions o as).2 = some e :=
    runActionsGo_error_propagates o act herr as (fun _ => 0) hmem
  refine ⟨herr, hrun, ?_⟩
  intro argCount logFile hc
  obtain ⟨e, he⟩ := hrun
  unfold popstatsMain
  rw [if_neg hc, he]

theorem codon_outgroup_preconditions_witness :
    (popstatsMain 2 "stats.log" (runActions oracleNat [piNPiSAct])).exitCode = 1 :=
  (codon_outgroup_preconditions oracleNat [piNPiSAct] piNPiSAct (by decide)
    (Or.inl ⟨Or.inl rfl, rfl⟩)).2.2 2 "stats.log" (by decide)

theorem countAfter_apply (pre : List PopAction) :
    ∀ (cnt : String → ℕ) (s : String),
    countAfter cnt pre s = cnt s + pre.countP (fun x => decide (x.name = s)) := by
  induction pre with
  | nil => intro cnt s; simp [countAfter]
  | cons a p ih =>
    intro cnt s
    unfold countAfter
    rw [ih (bumpCount cnt a.name) s]
    rw [List.countP_cons]
    unfold bumpCount
    by_cases h : s = a.name
    · subst h
      simp
      omega
    · have h2 : a.name ≠ s := fun hc => h hc.symm
      simp [h, h2]

theorem runActionsGo_append {α : Type} (o : PopStatsOracles α) :
    ∀ (pre rest : List PopAction) (cnt : String → ℕ),
    (runActionsGo o pre cnt).2 = none →
    runActionsGo o (pre ++ rest) cnt =
      ((runActionsGo o pre cnt).1 ++ (runActionsGo o rest (countAfter cnt pre)).1,
       (runActionsGo o rest (countAfter cnt pre)).2) := by
  intro pre
  induction pre with
  | nil =>
    intro rest cnt _
    simp [runActionsGo, countAfter]
  | cons a p ih =>
    intro rest cnt hok
    simp only [runActionsGo] at hok
    rw [List.cons_append]
    simp only [runActionsGo]
    cases hra : runAction o a (bumpCount cnt a.name a.name) with
    | error e =>
      rw [hra] at hok
      simp at hok
    | ok ls =>
      rw [hra] at hok
      have hok2 : (runActionsGo o p (bumpCount cnt a.name)).2 = none := by
        simpa using hok
      rw [ih rest (bumpCount cnt a.name) hok2]
      simp [countAfter, List.append_assoc]

theorem runAction_assignedNames {α : Type} (o : PopStatsOracles α) (act : PopAction)
    (k : ℕ) (ls : List LogLine) (h : runAction o act k = .ok ls) :
    assignedNames ls = (actionBaseNames act).map (fun b => b ++ sfx k) := by
  unfold runAction at h
  by_cases h1 : act.name = "SiteFrequencies"
  · rw [if_pos h1] at h
    injection h with hx
    subst hx
    simp [assignedNames, actionBaseNames, h1]
  rw [if_neg h1] at h
  by_cases h2 : act.name = "Watterson75"
  · rw [if_pos h2] at h
    injection h with hx
    subst hx
    simp [assignedNames, actionBaseNames, h1, h2]
  rw [if_neg h2] at h
  by_cases h3 : act.name = "Tajima83"
  · rw [if_pos h3] at h
    injection h with hx
    subst hx
    simp [assignedNames, actionBaseNames, h1, h2, h3]
  rw [if_neg h3] at h
  by_cases h4 : act.name = "TajimaD"
  · rw [if_pos h4] at h
    by_cases hg : (act.positionsArg = "synonymous" ∨ act.positionsArg = "non-synonymous")
        ∧ ¬o.codonAlphabet
    · rw [if_pos hg] at h
      exact Except.noConfusion h
    · rw [if_neg hg] at h
      cases hres : tajimaDRestrict o act.positionsArg with
      | none =>
        rw [hres] at h
        exact Except.noConfusion h
      | some pscTmp =>
        rw [hres] at h
        simp only [] at h
        by_cases hp : 0 < o.numberOfPolymorphicSites pscTmp
        · rw [if_pos hp] at h
          injection h with hx
          subst hx
          simp [assignedNames, actionBaseNames, h1, h2, h3, h4]
        · rw [if_neg hp] at h
          injection h with hx
          subst hx
          simp [assignedNames, actionBaseNames, h1, h2, h3, h4]
  rw [if_neg h4] at h
  by_cases h5 : act.name = "FuAndLiDStar"
  · rw [if_pos h5] at h
    injection h with hx
    subst hx
    simp [assignedNames, actionBaseNames, h1, h2, h3, h4, h5]
  rw [if_neg h5] at h
  by_cases h6 : act.name = "FuAndLiFStar"
  · rw [if_pos h6] at h
    injection h with hx
    subst hx
    simp [assignedNames, actionBaseNames, h1, h2, h3, h4, h5, h6]
  rw [if_neg h6] at h
  by_cases h7 : act.name = "PiN_PiS"
  · rw [if_pos h7] at h
    by_cases hc : o.codonAlphabet
    · rw [if_neg (by simp [hc])] at h
      injection h with hx
      subst hx
      simp [assignedNames, actionBaseNames, h1, h2, h3, h4, h5, h6, h7]
    · rw [if_pos (by simp [hc])] at h
      exact Except.noConfusion h
  rw [if_neg h7] at h
  by_cases h8 : act.name = "MKT"
  · rw [if_pos h8] at h
    by_cases hc : o.codonAlphabet
    · rw [if_neg (by simp [hc])] at h
      by_cases ho : o.hasOutgroup
      · rw [if_neg (by simp [ho])] at h
        injection h with hx
        subst hx
        simp [assignedNames, actionBaseNames, h1, h2, h3, h4, h5, h6, h7, h8]
      · rw [if_pos (by simp [ho])] at h
        exact Except.noConfusion h
    · rw [if_pos (by simp [hc])] at h
      exact Except.noConfusion h
  rw [if_neg h8] at h
  by_cases h9 : act.name = "CodonSiteStatistics"
  · rw [if_pos h9] at h
    by_cases hc : o.codonAlphabet
    · rw [if_neg (by simp [hc])] at h
      by_cases hf : act.outputFile = "none"
      · rw [if_pos hf] at h
        exact Except.noConfusion h
      · rw [if_neg hf] at h
        injection h with hx
        subst hx
        simp [assignedNames, actionBaseNames, h1, h2, h3, h4, h5, h6, h7, h8, h9]
    · rw [if_pos (by simp [hc])] at h
      exact Except.noConfusion h
  rw [if_neg h9] at h
  exact Except.noConfusion h

theorem sfx_injective (j k : ℕ) (hj : 1 ≤ j) (hk : 1 ≤ k) (h : sfx j = sfx k) :
    j = k := by
  unfold sfx at h
  by_cases hj1 : j > 1 <;> by_cases hk1 : k > 1
  · rw [if_pos hj1, if_pos hk1] at h
    refine natDigits_injective j k ?_
    have := congrArg String.data h
    simpa [toDecimalString] using this
  · rw [if_pos hj1, if_neg hk1] at h
    exfalso
    have := congrArg String.data h
    simp [toDecimalString] at this
    exact natDigits_ne_nil j this
  · rw [if_neg hj1, if_pos hk1] at h
    exfalso
    have := congrArg String.data h
    simp [toDecimalString] at this
    exact natDigits_ne_nil k this
  · omega

/-- Two base names arising from actions with the same command name are
either equal or both digit-free. -/
theorem actionBaseNames_pairwise_safe (x y : PopAction) (hxy : x.name = y.name) :
    ∀ b1 ∈ actionBaseNames x, ∀ b2 ∈ actionBaseNames y,
      b1 = b2 ∨ (digitFree b1 ∧ digitFree b2) := by
  intro b1 hb1 b2 hb2
  unfold actionBaseNames at hb1 hb2
  rw [← hxy] at hb2
  by_cases h1 : x.name = "SiteFrequencies"
  · simp only [h1, if_pos] at hb1 hb2
    simp at hb1 hb2
    rcases hb1 with rfl | rfl <;> rcases hb2 with rfl | rfl <;>
      first | exact Or.inl rfl | exact Or.inr (by decide)
  rw [if_neg h1] at hb1 hb2
  by_cases h2 : x.name = "Watterson75"
  · simp [h2] at hb1 hb2
    subst hb1
    subst hb2
    exact Or.inl rfl
  rw [if_neg h2] at hb1 hb2
  by_cases h3 : x.name = "Tajima83"
  · simp [h3] at hb1 hb2
    subst hb1
    subst hb2
    exact Or.inl rfl
  rw [if_neg h3] at hb1 hb2
  by_cases h4 : x.name = "TajimaD"
  · simp [h4] at hb1 hb2
    subst hb1
    subst hb2
    exact Or.inl rfl
  rw [if_neg h4] at hb1 hb2
  by_cases h5 : x.name = "FuAndLiDStar"
  · simp [h5] at hb1 hb2
    subst hb1
    subst hb2
    cases x.totMut <;> cases y.totMut <;>
      first | exact Or.inl rfl | exact Or.inr (by decide)
  rw [if_neg h5] at hb1 hb2
  by_cases h6 : x.name = "FuAndLiFStar"
  · simp [h6] at hb1 hb2
    subst hb1
    subst hb2
    cases x.totMut <;> cases y.totMut <;>
      first | exact Or.inl rfl | exact Or.inr (by decide)
  rw [if_neg h6] at hb1 hb2
  by_cases h7 : x.name = "PiN_PiS"
  · simp [h7] at hb1 hb2
    rcases hb1 with rfl | rfl | rfl | rfl <;> rcases hb2 with rfl | rfl | rfl | rfl <;>
      first | exact Or.inl rfl | exact Or.inr (by decide)
  rw [if_neg h7] at hb1 hb2
  by_cases h8 : x.name = "MKT"
  · simp [h8] at hb1 hb2
    subst hb1
    subst hb2
    exact Or.inl rfl
  rw [if_neg h8] at hb1 hb2
  simp at hb1

/-- Log variable names built from base names of same-named actions with
different positive occurrence numbers differ. -/
theorem name_sfx_ne (b1 b2 : String)
    (hsafe : b1 = b2 ∨ (digitFree b1 ∧ digitFree b2))
    (j k : ℕ) (hj : 1 ≤ j) (hk : 1 ≤ k) (hjk : j ≠ k) :
    b1 ++ sfx j ≠ b2 ++ sfx k := by
  intro heq
  rcases hsafe with rfl | ⟨hd1, hd2⟩
  · have hdata : b1.data ++ (sfx j).data = b1.data ++ (sfx k).data := by
      rw [← String.data_append, ← String.data_append, heq]
    have hs : (sfx j).data = (sfx k).data := List.append_cancel_left hdata
    exact hjk (sfx_injective j k hj hk (String.ext hs))
  · exact hjk (base_sfx_injective b1 b2 hd1 hd2 j k hj hk heq).2

/-- C6: in a popstats action list, the k-th occurrence of an action name
writes log variable names consisting of the branch base names with the
numeric suffix k appended when k exceeds 1 and no suffix for the first
occurrence, and names written by different occurrences of the same action
name never coincide. -/
theorem popstats_log_suffix {α : Type} (o : PopStatsOracles α)
    (pre post : List PopAction) (act : PopAction)
    (hpre : (runActions o pre).2 = none) :
    (∀ ls, runAction o act (pre.countP (fun x => decide (x.name = act.name)) + 1) = .ok ls →
       assignedNames ls = (actionBaseNames act).map
         (fun b => b ++ sfx (pre.countP (fun x => decide (x.name = act.name)) + 1)) ∧
       (pre.countP (fun x => decide (x.name = act.name)) = 0 →
          assignedNames ls = actionBaseNames act) ∧
       ∃ rest, (runActions o (pre ++ act :: post)).1 =
         (runActions o pre).1 ++ (ls ++ rest)) ∧
    (∀ b c : PopAction, b.name = c.name → ∀ j k2 : ℕ, 1 ≤ j → 1 ≤ k2 → j ≠ k2 →
       ∀ n1 ∈ (actionBaseNames b).map (fun x => x ++ sfx j),
       ∀ n2 ∈ (actionBaseNames c).map (fun x => x ++ sfx k2), n1 ≠ n2) := by
  constructor
  · intro ls hls
    have hcount : countAfter (fun _ => 0) pre act.name
        = pre.countP (fun x => decide (x.name = act.name)) := by
      rw [countAfter_apply]
      omega
    have hnames := runAction_assignedNames o act _ ls hls
    refine ⟨hnames, ?_, ?_⟩
    · intro h0
      rw [hnames, h0]
      have hsfx1 : sfx (0 + 1) = "" := rfl
      rw [hsfx1]
      simp
    · have happ := runActionsGo_append o pre (act :: post) (fun _ => 0) hpre
      unfold runActions
      rw [happ]
      have hk : bumpCount (countAfter (fun _ => 0) pre) act.name act.name
          = pre.countP (fun x => decide (x.name = act.name)) + 1 := by
        unfold bumpCount
        rw [if_pos rfl, hcount]
      refine ⟨(runActionsGo o post (bumpCount (countAfter (fun _ => 0) pre) act.name)).1, ?_⟩
      simp only [runActionsGo]
      rw [hk, hls]
  · intro b c hbc j k2 hj hk2 hjk n1 hn1 n2 hn2
    rcases List.mem_map.1 hn1 with ⟨b1, hb1, rfl⟩
    rcases List.mem_map.1 hn2 with ⟨b2, hb2, rfl⟩
    exact name_sfx_ne b1 b2 (actionBaseNames_pairwise_safe b c hbc b1 hb1 b2 hb2)
      j k2 hj hk2 hjk

theorem popstats_log_suffix_witness :
    assignedNames
      [.comment "# Site frequencies",
       .assign ("NbSegSites" ++ sfx 2) (.num 0),
       .assign ("NbSingl" ++ sfx 2) (.num 0)] =
      (actionBaseNames siteFreqAct).map (fun b => b ++ sfx 2) ∧
    ("NbSegSites" ++ sfx 1) ≠ ("NbSegSites" ++ sfx 2) := by
  constructor
  · exact ((popstats_log_suffix oracleNat [siteFreqAct] [] siteFreqAct (by decide)).1
      [.comment "# Site frequencies",
       .assign ("NbSegSites" ++ sfx 2) (.num 0),
       .assign ("NbSingl" ++ sfx 2) (.num 0)] (by decide)).1
  · exact (popstats_log_suffix oracleNat [siteFreqAct] [] siteFreqAct (by decide)).2
      siteFreqAct siteFreqAct rfl 1 2 (by decide) (by decide) (by decide)
      ("NbSegSites" ++ sfx 1) (by simp [actionBaseNames, siteFreqAct])
      ("NbSegSites" ++ sfx 2) (by simp [actionBaseNames, siteFreqAct])

/-- C9: with no command-line arguments each tool prints usage and exits 0;
a caught error prints the message to the console and exits with status 1
for popstats and -1 for seqgen, popstats additionally appending the
message to the configured log file behind an error comment marker. -/
theorem main_exit_codes (argCount : ℕ) (logFile : String)
    (body : List LogLine × Option String) (bodyS : Except String SeqGenEvents) :
    (argCount = 1 →
       popstatsMain argCount logFile body = ⟨0, true, none, []⟩ ∧
       seqgenMain argCount bodyS = ⟨0, true, none⟩) ∧
    (∀ e, argCount ≠ 1 → body.2 = some e →
       popstatsMain argCount logFile body =
         ⟨1, false, some e,
          if logFile ≠ "none" then body.1 ++ [.comment ("# Error: " ++ e)] else []⟩) ∧
    (∀ e, argCount ≠ 1 → bodyS = .error e →
       seqgenMain argCount bodyS = ⟨-1, false, some e⟩) := by
  refine ⟨?_, ?_, ?_⟩
  · intro h1
    unfold popstatsMain seqgenMain
    rw [if_pos h1, if_pos h1]
    exact ⟨rfl, rfl⟩
  · intro e hne hb
    unfold popstatsMain
    rw [if_neg hne, hb]
  · intro e hne hb
    unfold seqgenMain
    rw [if_neg hne, hb]

theorem main_exit_codes_witness :
    popstatsMain 1 "none" ([], none) = ⟨0, true, none, []⟩ ∧
    seqgenMain 1 (.ok ⟨none, false, 0, false⟩) = ⟨0, true, none⟩ :=
  (main_exit_codes 1 "none" ([], none) (.ok ⟨none, false, 0, false⟩)).1 rfl
